import Mathlib

/-!
# Verification of the training-iteration orchestration of `layerwise-textinv`

Shallow embedding of the per-step scheduling, teacher-filter selection,
init-condition cache and loss-aggregation logic of
`src/ldm/models/diffusion/ddpm.py` (classes `DDPM` / `LatentDiffusion`) and of
`patch_multi_embeddings` in `src/ldm/util.py`, together with proofs of the
testable properties stated for them.

Randomness is injected explicitly: every `np.random.rand()` / `random.random()`
draw becomes a rational parameter in `[0,1)`, every `torch.randint` draw becomes
an integer parameter constrained to the sampled interval, and every
`random.choice` over a key list becomes an index parameter reduced modulo the
list length.
-/

namespace LayerwiseTI

/-! ## Iteration-mode scheduling (`DDPM.init_iteration_flags`, `DDPM.training_step`)

`ddpm.py` lines 315-384.  Only the three mode flags and the configuration
fields that the scheduling logic at the start of `training_step` reads are
embedded; the remaining `iter_flags` entries are independent of the mode
decision. -/

/-- The three mutually exclusive mode flags of `self.iter_flags`. -/
structure ModeFlags where
  do_normal_recon             : Bool
  do_unet_distill             : Bool
  do_comp_prompt_distillation : Bool
  deriving Repr, DecidableEq

/-- Configuration fields of `DDPM` read by the scheduling logic.
`composition_regs_iter_gap` defaults to `-1` in the source, hence `ℤ`. -/
structure SchedConfig where
  mix_prompt_distill_weight : ℚ
  composition_regs_iter_gap : ℤ
  p_unet_distill_iter       : ℚ
  deriving Repr, DecidableEq

/-- `DDPM.init_iteration_flags` (ddpm.py lines 315-334), restricted to the
three mode flags: `do_normal_recon := True`, `do_unet_distill := False`,
`do_comp_prompt_distillation := False`. -/
def init_iteration_flags : ModeFlags :=
  { do_normal_recon             := true
    do_unet_distill             := false
    do_comp_prompt_distillation := false }

/-- The scheduling logic at the start of `DDPM.training_step`
(ddpm.py lines 340-384).

* `cand_reg_types` holds the single entry `do_comp_prompt_distillation` iff
  `mix_prompt_distill_weight > 0`; with one candidate of probability 1 the
  `np.random.choice` at line 363 deterministically returns it.
* `u` is the injected `np.random.rand()` draw of line 376 (`u ∈ [0,1)`). -/
def training_step_flags (c : SchedConfig) (global_step : ℕ) (u : ℚ) : ModeFlags :=
  let f := init_iteration_flags
  let nCandRegs : ℕ := if 0 < c.mix_prompt_distill_weight then 1 else 0
  let f :=
    if 0 < nCandRegs ∧ 0 < c.composition_regs_iter_gap ∧
        (global_step : ℤ) % c.composition_regs_iter_gap = 0 then
      { f with do_comp_prompt_distillation := true
               do_normal_recon := false
               do_unet_distill := false }
    else f
  if f.do_comp_prompt_distillation = false then
    if 0 < c.p_unet_distill_iter ∧ u < c.p_unet_distill_iter then
      { f with do_unet_distill := true, do_normal_recon := false }
    else
      { f with do_normal_recon := true, do_unet_distill := false }
  else f

/-- Number of mode flags set in a `ModeFlags` record. -/
def ModeFlags.trueCount (f : ModeFlags) : ℕ :=
  f.do_normal_recon.toNat + f.do_unet_distill.toNat + f.do_comp_prompt_distillation.toNat

end LayerwiseTI

namespace LayerwiseTI

/-- C1: Mode exclusivity — for every configuration, step counter and random
draw, exactly one of `do_normal_recon`, `do_unet_distill`,
`do_comp_prompt_distillation` is true after the scheduling logic at the start
of `training_step` has run. -/
theorem mode_exclusivity (c : SchedConfig) (global_step : ℕ) (u : ℚ) :
    (training_step_flags c global_step u).trueCount = 1 := by
  unfold training_step_flags
  dsimp only
  split_ifs <;> simp_all [ModeFlags.trueCount, init_iteration_flags]

/-- C2: Compositional gap determinism — when `mix_prompt_distill_weight > 0`
and `composition_regs_iter_gap > 0`, a step is a compositional-distillation
step iff `global_step % composition_regs_iter_gap = 0`, independently of the
random draw; in particular for gap 3 exactly the steps `0, 3, 6, 9, …`. -/
theorem comp_distill_gap_determinism (c : SchedConfig) (global_step : ℕ) (u : ℚ)
    (hw : 0 < c.mix_prompt_distill_weight) (hg : 0 < c.composition_regs_iter_gap) :
    (training_step_flags c global_step u).do_comp_prompt_distillation = true ↔
      (global_step : ℤ) % c.composition_regs_iter_gap = 0 := by
  unfold training_step_flags init_iteration_flags
  by_cases hmod : (global_step : ℤ) % c.composition_regs_iter_gap = 0
  · simp [hw, hg, hmod]
  · simp only [hw, hg, hmod, if_true, if_false]
    split_ifs <;> simp_all

/-- C2 witness: with `mix_prompt_distill_weight = 1`, gap `3`, step `6` is a
compositional-distillation step. -/
theorem comp_distill_gap_determinism_witness :
    (training_step_flags ⟨1, 3, 0⟩ 6 0).do_comp_prompt_distillation = true :=
  (comp_distill_gap_determinism ⟨1, 3, 0⟩ 6 0 (by norm_num) (by norm_num)).mpr (by decide)

/-- C3 counterexample: the teacher-distillation decision is not a function of
the step counter.  With `mix_prompt_distill_weight = 1`,
`composition_regs_iter_gap = 4` and `p_unet_distill_iter = 1/2`, step 1 is not
a compositional step, yet it is a teacher-distillation (`do_unet_distill`)
step for the random draw `1/4` and a normal-reconstruction step for the draw
`3/4` — so the claimed deterministic gap rule (step 1 always TeacherDistill
under `G_comp = 4`, `G_td = 2`) is false. -/
theorem unet_distill_not_counter_deterministic :
    (training_step_flags ⟨1, 4, 1/2⟩ 1 (1/4)).do_unet_distill = true ∧
    (training_step_flags ⟨1, 4, 1/2⟩ 1 (3/4)).do_unet_distill = false ∧
    (training_step_flags ⟨1, 4, 1/2⟩ 1 (3/4)).do_normal_recon = true := by
  refine ⟨?_, ?_, ?_⟩ <;> norm_num [training_step_flags, init_iteration_flags]

/-- C3 amended: on a step, `do_unet_distill` (TeacherDistill) is set iff the
step is not scheduled as compositional distillation, `p_unet_distill_iter > 0`,
and the step's uniform random draw falls below `p_unet_distill_iter` — a
Bernoulli draw, not a deterministic counter-gap rule. -/
theorem unet_distill_bernoulli_rule (c : SchedConfig) (global_step : ℕ) (u : ℚ) :
    (training_step_flags c global_step u).do_unet_distill = true ↔
      ((training_step_flags c global_step u).do_comp_prompt_distillation = false ∧
        0 < c.p_unet_distill_iter ∧ u < c.p_unet_distill_iter) := by
  unfold training_step_flags init_iteration_flags
  dsimp only
  split_ifs <;> simp_all

end LayerwiseTI

namespace LayerwiseTI

/-! ## Compositional-iteration flags (`LatentDiffusion.shared_step`)

`ddpm.py` lines 809-829: `reuse_init_conds` and `do_comp_teacher_filter`. -/

/-- `p_reuse_init_conds` (ddpm.py line 820): `0.25` if the batch's first
subject comes from a mix-subject folder, else `1`. -/
def p_reuse_init_conds (is_in_mix_subj_folder : Bool) : ℚ :=
  if is_in_mix_subj_folder then 1/4 else 1

/-- The two compositional-iteration flags set by `shared_step`. -/
structure CompFlags where
  reuse_init_conds       : Bool
  do_comp_teacher_filter : Bool
  deriving Repr, DecidableEq

/-- `LatentDiffusion.shared_step` flag computation (ddpm.py lines 820-829):

* `reuse_init_conds := do_comp_prompt_distillation ∧ (subject ∈ cached_inits)
  ∧ random.random() < p_reuse_init_conds`;
* `do_comp_teacher_filter := do_comp_teacher_filtering ∧
  do_comp_prompt_distillation ∧ ¬reuse_init_conds`.

`r` is the injected `random.random()` draw. -/
def shared_step_comp_flags (do_comp_teacher_filtering : Bool)
    (do_comp_prompt_distillation : Bool) (subject_in_cache : Bool)
    (is_in_mix_subj_folder : Bool) (r : ℚ) : CompFlags :=
  let reuse := do_comp_prompt_distillation && subject_in_cache &&
                 decide (r < p_reuse_init_conds is_in_mix_subj_folder)
  { reuse_init_conds       := reuse
    do_comp_teacher_filter := do_comp_teacher_filtering &&
                                do_comp_prompt_distillation && !reuse }

/-- C10: in every step, `do_comp_teacher_filter` and `reuse_init_conds` are
never both true, and when `do_comp_prompt_distillation` is false both flags
are false. -/
theorem comp_filter_reuse_exclusive (filtering comp inCache mixFolder : Bool) (r : ℚ) :
    ((shared_step_comp_flags filtering comp inCache mixFolder r).do_comp_teacher_filter &&
      (shared_step_comp_flags filtering comp inCache mixFolder r).reuse_init_conds) = false ∧
    (shared_step_comp_flags filtering false inCache mixFolder r).do_comp_teacher_filter = false ∧
    (shared_step_comp_flags filtering false inCache mixFolder r).reuse_init_conds = false := by
  unfold shared_step_comp_flags
  refine ⟨?_, by simp, by simp⟩
  cases h : (comp && inCache && decide (r < p_reuse_init_conds mixFolder)) <;> simp [h]

end LayerwiseTI

namespace LayerwiseTI

/-! ## The init-condition cache (`self.cached_inits`)

`self.cached_inits` is a Python dict keyed by subject name.  It is modelled as
an insertion-ordered association list (Python dicts preserve insertion order;
updating an existing key keeps its position).  The cache operations embedded
here are those of `LatentDiffusion.p_losses`:

* read-and-delete of a reused entry (ddpm.py lines 1503-1506);
* bounded insertion with random eviction (ddpm.py lines 2128-2148). -/

/-- `MAX_SIZE` of the init-condition cache: the literal `100` of
`if len(self.cached_inits) > 100` (ddpm.py line 2146). -/
def cachedInitsMaxSize : ℕ := 100

section Cache

variable {K V : Type} [DecidableEq K]

/-- Dict read: `self.cached_inits[name]` when present. -/
def cacheLookup (c : List (K × V)) (k : K) : Option V :=
  (c.find? (fun p => p.1 = k)).map Prod.snd

/-- Dict deletion: `del self.cached_inits[name]`. -/
def cacheErase (c : List (K × V)) (k : K) : List (K × V) :=
  c.filter (fun p => p.1 ≠ k)

/-- Dict write `self.cached_inits[name] = entry`: update in place when the key
exists, else append. -/
def cacheInsert (c : List (K × V)) (k : K) (v : V) : List (K × V) :=
  if c.any (fun p => p.1 = k) then
    c.map (fun p => if p.1 = k then (k, v) else p)
  else c ++ [(k, v)]

/-- Keys of the cache, in insertion order (`list(self.cached_inits.keys())`). -/
def cacheKeys (c : List (K × V)) : List K := c.map Prod.fst

/-- The cache write of ddpm.py lines 2128-2148: insert the entry, then if the
size exceeds 100, delete one key chosen by `random.choice` over the key list
— modelled by the injected uniform index `pick`, reduced modulo the number of
keys. -/
def cachePutEvict (c : List (K × V)) (k : K) (v : V) (pick : ℕ) : List (K × V) :=
  let c1 := cacheInsert c k v
  if cachedInitsMaxSize < c1.length then
    cacheErase c1 ((cacheKeys c1).getD (pick % c1.length) k)
  else c1

/-- The destructive consumption of a cached entry in a `reuse_init_conds`
iteration (ddpm.py lines 1503-1506): the entry is read, then
`del self.cached_inits[name]` removes it. -/
def cacheGet (c : List (K × V)) (k : K) : Option V × List (K × V) :=
  match cacheLookup c k with
  | some v => (some v, cacheErase c k)
  | none   => (none, c)

/-- Folding a sequence of writes (key, entry, eviction draw) into an initially
empty cache. -/
def cachePutMany (ps : List (K × V × ℕ)) : List (K × V) :=
  ps.foldl (fun c q => cachePutEvict c q.1 q.2.1 q.2.2) []

theorem cacheInsert_length (c : List (K × V)) (k : K) (v : V) :
    (cacheInsert c k v).length ≤ c.length + 1 := by
  unfold cacheInsert
  split_ifs <;> simp

theorem cacheInsert_length_pos (c : List (K × V)) (k : K) (v : V) :
    0 < (cacheInsert c k v).length := by
  unfold cacheInsert
  split_ifs with h
  · simp only [List.length_map]
    rcases c with _ | _
    · simp [List.any_nil] at h
    · simp
  · simp

theorem cacheErase_length_lt (c : List (K × V)) (k : K) (hk : k ∈ cacheKeys c) :
    (cacheErase c k).length < c.length := by
  unfold cacheErase
  rcases List.mem_map.mp hk with ⟨p, hp, hpk⟩
  calc (c.filter (fun p => p.1 ≠ k)).length
      < c.length := by
        apply List.length_filter_lt_length_iff_exists.mpr
        exact ⟨p, hp, by simp [hpk]⟩

theorem cachePutEvict_getD_mem (c : List (K × V)) (k : K) (v : V) (pick : ℕ) :
    (cacheKeys (cacheInsert c k v)).getD (pick % (cacheInsert c k v).length) k ∈
      cacheKeys (cacheInsert c k v) := by
  have hlt : pick % (cacheInsert c k v).length < (cacheKeys (cacheInsert c k v)).length := by
    simp only [cacheKeys, List.length_map]
    exact Nat.mod_lt _ (cacheInsert_length_pos c k v)
  rw [List.getD_eq_getElem _ _ hlt]
  exact List.getElem_mem hlt

/-- The cache bound is preserved by every write. -/
theorem cachePutEvict_bound (c : List (K × V)) (k : K) (v : V) (pick : ℕ)
    (h : c.length ≤ cachedInitsMaxSize) :
    (cachePutEvict c k v pick).length ≤ cachedInitsMaxSize := by
  unfold cachePutEvict
  dsimp only
  split_ifs with hlen
  · have hmem := cachePutEvict_getD_mem c k v pick
    have hlt := cacheErase_length_lt (cacheInsert c k v) _ hmem
    have hle := cacheInsert_length c k v
    omega
  · omega

theorem cacheKeys_insert (c : List (K × V)) (k : K) (v : V) :
    cacheKeys (cacheInsert c k v) =
      if c.any (fun p => p.1 = k) then cacheKeys c else cacheKeys c ++ [k] := by
  unfold cacheInsert cacheKeys
  split_ifs with h
  · rw [List.map_map]
    refine congrArg₂ _ ?_ rfl
    funext p
    by_cases hpk : p.1 = k <;> simp [hpk]
  · simp

theorem cacheKeys_insert_nodup (c : List (K × V)) (k : K) (v : V)
    (hnd : (cacheKeys c).Nodup) : (cacheKeys (cacheInsert c k v)).Nodup := by
  rw [cacheKeys_insert]
  split_ifs with h
  · exact hnd
  · rw [List.nodup_append]
    refine ⟨hnd, List.nodup_singleton k, ?_⟩
    intro a ha hb
    rcases List.mem_singleton.mp hb with rfl
    exact h (List.any_eq_true.mpr (by
      rcases List.mem_map.mp ha with ⟨p, hp, hpk⟩
      exact ⟨p, hp, by simp [hpk]⟩))

theorem cacheErase_of_not_mem (c : List (K × V)) (k : K) (hk : k ∉ cacheKeys c) :
    cacheErase c k = c := by
  unfold cacheErase
  apply List.filter_eq_self.mpr
  intro p hp
  simp only [ne_eq, decide_eq_true_eq]
  intro hpk
  exact hk (List.mem_map.mpr ⟨p, hp, hpk⟩)

theorem cacheErase_length_nodup (c : List (K × V)) (k : K)
    (hnd : (cacheKeys c).Nodup) (hk : k ∈ cacheKeys c) :
    (cacheErase c k).length = c.length - 1 := by
  induction c with
  | nil => simp [cacheKeys] at hk
  | cons p t ih =>
    simp only [cacheKeys, List.map_cons, List.nodup_cons] at hnd hk
    rcases hnd with ⟨hp_notin, hnd_t⟩
    by_cases hpk : p.1 = k
    · have : cacheErase (p :: t) k = cacheErase t k := by
        unfold cacheErase
        simp [hpk]
      rw [this, cacheErase_of_not_mem t k (by rwa [hpk] at hp_notin)]
      simp
    · have hk_t : k ∈ cacheKeys t := by
        rcases List.mem_cons.mp hk with hk1 | hk1
        · exact absurd hk1.symm hpk
        · exact hk1
      have hlen : 1 ≤ t.length := by
        rcases List.mem_map.mp hk_t with ⟨q, hq, _⟩
        exact List.length_pos.mpr (by rintro rfl; simp at hq)
      have : cacheErase (p :: t) k = p :: cacheErase t k := by
        unfold cacheErase
        simp [hpk]
      rw [this]
      simp only [List.length_cons, ih hnd_t hk_t]
      omega

/-- C6: the init-condition cache is bounded with uniform-random eviction:
(1) any sequence of writes starting from the empty cache leaves at most
`MAX_SIZE = 100` resident entries — in particular inserting `MAX_SIZE + 1`
distinct keys does;
(2) every single write preserves the bound;
(3) a write that exceeds the bound removes exactly one key;
(4) the victim of such a write is the `pick % n`-th entry of the key list for
the injected uniform draw `pick` — every resident key, including the newest,
is a possible victim (uniform over keys, not LRU). -/
theorem init_condition_cache_bound {K V : Type} [DecidableEq K] :
    (∀ ps : List (K × V × ℕ), (cachePutMany ps).length ≤ cachedInitsMaxSize) ∧
    (∀ (c : List (K × V)) (k : K) (v : V) (pick : ℕ),
      c.length ≤ cachedInitsMaxSize →
      (cachePutEvict c k v pick).length ≤ cachedInitsMaxSize) ∧
    (∀ (c : List (K × V)) (k : K) (v : V) (pick : ℕ),
      (cacheKeys c).Nodup → cachedInitsMaxSize < (cacheInsert c k v).length →
      (cachePutEvict c k v pick).length = (cacheInsert c k v).length - 1) ∧
    (∀ (c : List (K × V)) (k : K) (v : V) (j : ℕ),
      j < (cacheInsert c k v).length →
      cachedInitsMaxSize < (cacheInsert c k v).length →
      cachePutEvict c k v j =
        cacheErase (cacheInsert c k v) ((cacheKeys (cacheInsert c k v)).getD j k)) := by
  refine ⟨?_, cachePutEvict_bound, ?_, ?_⟩
  · intro ps
    have : ∀ (c : List (K × V)), c.length ≤ cachedInitsMaxSize →
        (ps.foldl (fun c q => cachePutEvict c q.1 q.2.1 q.2.2) c).length ≤ cachedInitsMaxSize := by
      induction ps with
      | nil => intro c hc; simpa using hc
      | cons q t ih =>
        intro c hc
        exact ih _ (cachePutEvict_bound c q.1 q.2.1 q.2.2 hc)
    exact this [] (by simp [cachedInitsMaxSize])
  · intro c k v pick hnd hover
    unfold cachePutEvict
    dsimp only
    rw [if_pos hover]
    exact cacheErase_length_nodup _ _ (cacheKeys_insert_nodup c k v hnd)
      (cachePutEvict_getD_mem c k v pick)
  · intro c k v j hj hover
    unfold cachePutEvict
    dsimp only
    rw [if_pos hover, Nat.mod_eq_of_lt hj]

/-- C7: cache single-use semantics: a cached entry is removed when consumed,
so a second `get` of the same key without an intervening `put` returns `none`;
and a `reuse_init_conds` iteration can only be scheduled while the subject's
key is present in the cache. -/
theorem cache_single_use {K V : Type} [DecidableEq K] :
    (∀ (c : List (K × V)) (k : K) (v : V), cacheLookup c k = some v →
      (cacheGet c k).1 = some v ∧ (cacheGet (cacheGet c k).2 k).1 = none) ∧
    (∀ (filtering comp inCache mixFolder : Bool) (r : ℚ),
      (shared_step_comp_flags filtering comp inCache mixFolder r).reuse_init_conds = true →
      inCache = true) := by
  constructor
  · intro c k v hv
    have herase : cacheLookup (cacheErase c k) k = none := by
      unfold cacheLookup
      rw [List.find?_eq_none.mpr]
      · rfl
      · intro p hp
        have := List.of_mem_filter hp
        simpa using this
    constructor
    · unfold cacheGet
      rw [hv]
    · unfold cacheGet
      rw [hv]
      dsimp only
      rw [herase]
  · intro filtering comp inCache mixFolder r h
    unfold shared_step_comp_flags at h
    dsimp only at h
    cases inCache
    · simp at h
    · rfl

end Cache

/-- A concrete 100-entry cache (at the bound) used to exercise the eviction
path. -/
def fullCache : List (ℕ × Unit) := (List.range 100).map (fun i => (i, ()))

/-- C6 witness: two writes from empty stay within the bound; a write into the
concrete 100-entry `fullCache` stays at 100 entries, removes exactly one key,
and (with eviction draw 7) removes exactly the 7th key of the key list. -/
theorem init_condition_cache_bound_witness :
    (cachePutMany [(0, (), 0), (1, (), 0)] : List (ℕ × Unit)).length ≤ cachedInitsMaxSize ∧
    (cachePutEvict fullCache 100 () 7).length ≤ cachedInitsMaxSize ∧
    (cachePutEvict fullCache 100 () 7).length = (cacheInsert fullCache 100 ()).length - 1 ∧
    cachePutEvict fullCache 100 () 7 =
      cacheErase (cacheInsert fullCache 100 ())
        ((cacheKeys (cacheInsert fullCache 100 ())).getD 7 100) :=
  ⟨(init_condition_cache_bound (K := ℕ) (V := Unit)).1 [(0, (), 0), (1, (), 0)],
   (init_condition_cache_bound (K := ℕ) (V := Unit)).2.1 fullCache 100 () 7 (by decide),
   (init_condition_cache_bound (K := ℕ) (V := Unit)).2.2.1 fullCache 100 () 7 (by decide) (by decide),
   (init_condition_cache_bound (K := ℕ) (V := Unit)).2.2.2 fullCache 100 () 7 (by decide) (by decide)⟩

/-- C7 witness: on the concrete one-entry cache `[(5, 42)]`, the first `get`
of key 5 returns the entry and the second returns `none`; and a concrete step
with `reuse_init_conds = true` has the subject in the cache. -/
theorem cache_single_use_witness :
    ((cacheGet [((5 : ℕ), (42 : ℕ))] 5).1 = some 42 ∧
      (cacheGet (cacheGet [((5 : ℕ), (42 : ℕ))] 5).2 5).1 = none) ∧
    true = true :=
  ⟨(cache_single_use (K := ℕ) (V := ℕ)).1 [(5, 42)] 5 42 (by decide),
   (cache_single_use (K := ℕ) (V := ℕ)).2 true true true false 0 (by decide)⟩

end LayerwiseTI

namespace LayerwiseTI

/-! ## Teacher filtering (`LatentDiffusion.calc_clip_losses`)

`ddpm.py` lines 2495-2564.  The CLIP losses of the subject-guided and the
class(mix)-guided candidates enter the decision block as two parallel lists of
scores. -/

/-- `clip_loss_thres = 0.28` (ddpm.py line 2523). -/
def clip_loss_thres : ℚ := 28/100

/-- `cls_subj_clip_margin = 0.002` (ddpm.py line 2524). -/
def cls_subj_clip_margin : ℚ := 1/500

/-- The diff assigned to a disqualified candidate before arg-max selection:
`loss_diffs_subj_mix[~are_insts_teachable] = -1e4` (ddpm.py line 2550). -/
def disqualified_diff : ℚ := -10000

/-- The per-pair teachability test (ddpm.py line 2536):
`(losses_clip_mix_comp <= clip_loss_thres) & (loss_diffs_subj_mix > cls_subj_clip_margin)`
with `loss_diffs_subj_mix = losses_clip_subj_comp - losses_clip_mix_comp`. -/
def teachable_pair (loss_subj loss_mix : ℚ) : Bool :=
  decide (loss_mix ≤ clip_loss_thres) && decide (loss_subj - loss_mix > cls_subj_clip_margin)

/-- Elementwise teachability over the candidate lists. -/
def are_insts_teachable (losses_subj losses_mix : List ℚ) : List Bool :=
  (losses_subj.zip losses_mix).map (fun p => teachable_pair p.1 p.2)

/-- The loss diffs after disqualified candidates are replaced by `-1e4`
(ddpm.py line 2550). -/
def masked_loss_diffs (losses_subj losses_mix : List ℚ) : List ℚ :=
  (losses_subj.zip losses_mix).map
    (fun p => if teachable_pair p.1 p.2 then p.1 - p.2 else disqualified_diff)

/-- Maximum of a rational list (0 on the empty list, which the source never
hits: the batch is nonempty). -/
def listMax : List ℚ → ℚ
  | []      => 0
  | x :: xs => xs.foldl max x

/-- `torch.argmax(...).item()` (ddpm.py line 2551): the first index attaining
the maximum. -/
def argmaxQ (l : List ℚ) : ℕ := l.indexOf (listMax l)

/-- The teachability verdict of one `calc_clip_losses` invocation. -/
structure TeachVerdict where
  are_teachable : List Bool
  is_teachable  : Bool
  best_cand_idx : ℕ
  deriving Repr, DecidableEq

/-- The decision block of `calc_clip_losses` (ddpm.py lines 2518-2564): with
teacher filtering or reuse active, candidates are tested and the best masked
diff is selected; otherwise every instance counts as teachable with candidate
index 0 (`torch.ones_like` / `best_cand_idx = 0`, lines 2562-2564; the
enclosing `p_losses` then forces `is_teachable = True`, line 2159). -/
def calc_clip_verdict (do_comp_teacher_filter reuse_init_conds : Bool)
    (losses_subj losses_mix : List ℚ) : TeachVerdict :=
  if do_comp_teacher_filter || reuse_init_conds then
    let teach := are_insts_teachable losses_subj losses_mix
    { are_teachable := teach
      is_teachable  := teach.any id
      best_cand_idx := argmaxQ (masked_loss_diffs losses_subj losses_mix) }
  else
    { are_teachable := List.replicate losses_subj.length true
      is_teachable  := true
      best_cand_idx := 0 }

theorem listMax_aux_or (xs : List ℚ) : ∀ x : ℚ, xs.foldl max x = x ∨ xs.foldl max x ∈ xs := by
  induction xs with
  | nil => intro x; left; rfl
  | cons y ys ih =>
    intro x
    rcases ih (max x y) with h | h
    · rcases max_cases x y with ⟨he, _⟩ | ⟨he, _⟩
      · left; rw [List.foldl_cons, h, he]
      · right; rw [List.foldl_cons, h, he]; exact List.mem_cons_self y ys
    · right; exact List.mem_cons_of_mem y h

theorem listMax_aux_le (xs : List ℚ) : ∀ x : ℚ, x ≤ xs.foldl max x ∧ ∀ a ∈ xs, a ≤ xs.foldl max x := by
  induction xs with
  | nil => intro x; exact ⟨le_refl x, by simp⟩
  | cons y ys ih =>
    intro x
    rcases ih (max x y) with ⟨h1, h2⟩
    refine ⟨le_trans (le_max_left x y) h1, ?_⟩
    intro a ha
    rcases List.mem_cons.mp ha with rfl | ha
    · exact le_trans (le_max_right x a) h1
    · exact h2 a ha

theorem listMax_mem (l : List ℚ) (h : l ≠ []) : listMax l ∈ l := by
  cases l with
  | nil => exact absurd rfl h
  | cons x xs =>
    show xs.foldl max x ∈ x :: xs
    rcases listMax_aux_or xs x with h1 | h1
    · rw [h1]; exact List.mem_cons_self x xs
    · exact List.mem_cons_of_mem x h1

theorem le_listMax (l : List ℚ) (a : ℚ) (ha : a ∈ l) : a ≤ listMax l := by
  cases l with
  | nil => simp at ha
  | cons x xs =>
    show a ≤ xs.foldl max x
    rcases List.mem_cons.mp ha with rfl | ha
    · exact (listMax_aux_le xs a).1
    · exact (listMax_aux_le xs x).2 a ha

theorem argmaxQ_get? (l : List ℚ) (h : l ≠ []) : l.get? (argmaxQ l) = some (listMax l) := by
  unfold argmaxQ
  rw [← List.indexOf_get? (listMax_mem l h)]

/-! ### The cached-inits key set across a run of training steps

Combines the `shared_step` flag computation with the cache reads/writes of
`p_losses`: a `reuse_init_conds` step consumes (deletes) the subject's entry
(ddpm.py lines 1503-1506), and only a `do_comp_teacher_filter` step with a
teachable candidate writes a new entry (ddpm.py lines 2026-2148). -/

/-- The per-step inputs that affect the cached-inits state: subject key,
whether the step is compositional, the mix-folder flag, the reuse draw, the
teachability outcome, and the eviction draw. -/
structure RunStep (K : Type) where
  subj      : K
  comp      : Bool
  mixFolder : Bool
  r         : ℚ
  teachable : Bool
  pick      : ℕ

/-- Effect of one training step on `self.cached_inits` (entries collapsed to
`Unit`; only the key set matters here). -/
def cachedInitsStep {K : Type} [DecidableEq K] (do_comp_teacher_filtering : Bool)
    (c : List (K × Unit)) (s : RunStep K) : List (K × Unit) :=
  let fl := shared_step_comp_flags do_comp_teacher_filtering s.comp
              (decide (s.subj ∈ cacheKeys c)) s.mixFolder s.r
  let c1 := if fl.reuse_init_conds then cacheErase c s.subj else c
  if fl.do_comp_teacher_filter && s.teachable then cachePutEvict c1 s.subj () s.pick else c1

/-- The cached-inits state after a run of training steps from a fresh start
(the cache is process-local and starts empty). -/
def cachedInitsRun {K : Type} [DecidableEq K] (do_comp_teacher_filtering : Bool)
    (steps : List (RunStep K)) : List (K × Unit) :=
  steps.foldl (cachedInitsStep do_comp_teacher_filtering) []

theorem cachedInitsStep_nil {K : Type} [DecidableEq K] (s : RunStep K) :
    cachedInitsStep false [] s = [] := by
  unfold cachedInitsStep shared_step_comp_flags
  dsimp only
  simp [cacheErase, cacheKeys]

/-- C5: teacher-filter selection rule:
(a) a candidate pair is teachable iff the class-guided loss is at most
`clip_loss_thres = 0.28` and the diff exceeds `cls_subj_clip_margin = 0.002`;
(b) whenever some candidate is teachable, the arg-max over the masked diffs
never selects a disqualified candidate as `best_cand_idx`, even if its raw
diff is largest;
(c) with teacher filtering globally disabled the cached-inits stay empty over
any run, so `do_comp_teacher_filter` and `reuse_init_conds` are always false,
and the verdict is then always teachable with `best_cand_idx = 0`. -/
theorem teacher_filter_selection {K : Type} [DecidableEq K] :
    (∀ (ls lm : List ℚ) (i : ℕ) (subj mix : ℚ),
      (ls.zip lm).get? i = some (subj, mix) →
      ((are_insts_teachable ls lm).get? i = some true ↔
        (mix ≤ clip_loss_thres ∧ subj - mix > cls_subj_clip_margin))) ∧
    (∀ (f r : Bool) (ls lm : List ℚ) (i : ℕ),
      (f || r) = true →
      (are_insts_teachable ls lm).get? i = some true →
      (are_insts_teachable ls lm).get?
        (calc_clip_verdict f r ls lm).best_cand_idx = some true) ∧
    (∀ steps : List (RunStep K), cachedInitsRun false steps = []) ∧
    (∀ (comp inCache mixFolder : Bool) (r : ℚ),
      (shared_step_comp_flags false comp inCache mixFolder r).do_comp_teacher_filter = false ∧
      (shared_step_comp_flags false comp false mixFolder r).reuse_init_conds = false) ∧
    (∀ ls lm : List ℚ,
      (calc_clip_verdict false false ls lm).is_teachable = true ∧
      (calc_clip_verdict false false ls lm).best_cand_idx = 0) := by
  refine ⟨?_, ?_, ?_, ?_, ?_⟩
  · intro ls lm i subj mix hz
    unfold are_insts_teachable
    rw [List.get?_map, hz]
    simp [teachable_pair]
  · intro f r ls lm i hfr hi
    have hmap : are_insts_teachable ls lm =
        (ls.zip lm).map (fun p => teachable_pair p.1 p.2) := rfl
    have hdm : masked_loss_diffs ls lm = (ls.zip lm).map
        (fun p => if teachable_pair p.1 p.2 then p.1 - p.2 else disqualified_diff) := rfl
    rw [hmap, List.get?_map] at hi
    rcases Option.map_eq_some'.mp hi with ⟨p, hp, hfp⟩
    have hfp : teachable_pair p.1 p.2 = true := hfp
    have hdi : (masked_loss_diffs ls lm).get? i = some (p.1 - p.2) := by
      rw [hdm, List.get?_map, hp]
      simp [hfp]
    have hne : masked_loss_diffs ls lm ≠ [] := by
      intro h0
      rw [h0] at hdi
      simp at hdi
    have hj := argmaxQ_get? (masked_loss_diffs ls lm) hne
    have hgt : cls_subj_clip_margin < p.1 - p.2 := by
      unfold teachable_pair at hfp
      simp only [Bool.and_eq_true, decide_eq_true_eq] at hfp
      exact hfp.2
    have hmem : (p.1 - p.2) ∈ masked_loss_diffs ls lm := List.get?_mem hdi
    have hle : p.1 - p.2 ≤ listMax (masked_loss_diffs ls lm) := le_listMax _ _ hmem
    have hmax_gt : disqualified_diff < listMax (masked_loss_diffs ls lm) := by
      have hdc : disqualified_diff < cls_subj_clip_margin := by
        norm_num [disqualified_diff, cls_subj_clip_margin]
      linarith
    have hj' : ((ls.zip lm).get? (argmaxQ (masked_loss_diffs ls lm))).map
        (fun p => if teachable_pair p.1 p.2 then p.1 - p.2 else disqualified_diff) =
          some (listMax (masked_loss_diffs ls lm)) := by
      rw [← List.get?_map, ← hdm]
      exact hj
    rcases Option.map_eq_some'.mp hj' with ⟨q, hq, hgq⟩
    have hfq : teachable_pair q.1 q.2 = true := by
      cases hqb : teachable_pair q.1 q.2
      · exfalso
        rw [hqb] at hgq
        simp only [Bool.false_eq_true, if_false] at hgq
        exact (ne_of_lt hmax_gt) hgq
      · rfl
    have hbest : (calc_clip_verdict f r ls lm).best_cand_idx =
        argmaxQ (masked_loss_diffs ls lm) := by
      simp [calc_clip_verdict, hfr]
    rw [hbest, hmap, List.get?_map, hq]
    simp [hfq]
  · intro steps
    unfold cachedInitsRun
    induction steps with
    | nil => rfl
    | cons s t ih => rw [List.foldl_cons, cachedInitsStep_nil]; exact ih
  · intro comp inCache mixFolder r
    constructor
    · unfold shared_step_comp_flags
      simp
    · unfold shared_step_comp_flags
      simp
  · intro ls lm
    constructor <;> simp [calc_clip_verdict]

/-- C5 witness: with subject losses `[0.9, 0.2]` and class losses
`[0.5, 0.1]`, candidate 0 has the larger raw diff (0.4) but fails the
absolute threshold, candidate 1 passes both tests, and the verdict selects
candidate 1; a one-step filtering-disabled run keeps the cache empty and the
degenerate verdict is teachable with index 0. -/
theorem teacher_filter_selection_witness :
    (are_insts_teachable [9/10, 2/10] [5/10, 1/10]).get? 1 = some true ∧
    (are_insts_teachable [9/10, 2/10] [5/10, 1/10]).get?
      (calc_clip_verdict true false [9/10, 2/10] [5/10, 1/10]).best_cand_idx = some true ∧
    cachedInitsRun false [(⟨0, true, false, 0, true, 0⟩ : RunStep ℕ)] = [] ∧
    (calc_clip_verdict false false [9/10, 2/10] [5/10, 1/10]).is_teachable = true ∧
    (calc_clip_verdict false false [9/10, 2/10] [5/10, 1/10]).best_cand_idx = 0 := by
  have h := teacher_filter_selection (K := ℕ)
  refine ⟨?_, ?_, ?_, ?_, ?_⟩
  · exact (h.1 [9/10, 2/10] [5/10, 1/10] 1 (2/10) (1/10) (by norm_num)).mpr
      (by norm_num [clip_loss_thres, cls_subj_clip_margin])
  · exact h.2.1 true false [9/10, 2/10] [5/10, 1/10] 1 rfl
      ((h.1 [9/10, 2/10] [5/10, 1/10] 1 (2/10) (1/10) (by norm_num)).mpr
        (by norm_num [clip_loss_thres, cls_subj_clip_margin]))
  · exact h.2.2.1 [⟨0, true, false, 0, true, 0⟩]
  · exact (h.2.2.2.2 [9/10, 2/10] [5/10, 1/10]).1
  · exact (h.2.2.2.2 [9/10, 2/10] [5/10, 1/10]).2

end LayerwiseTI

namespace LayerwiseTI

/-! ## Multi-step denoising timesteps

The reuse-iteration timestep bound is embedded from `LatentDiffusion.p_losses`
(ddpm.py lines 1514-1524).  The per-step timestep resampling of the general
multi-step denoiser lives in `adaface/unet_teachers.py` (called at ddpm.py
line 1879), which is not part of this source tree; it is modelled from the
spec below. -/

/-- `self.num_timesteps` (ddpm.py line 197, default `timesteps = 1000`). -/
def num_timesteps : ℕ := 1000

/-- `int(self.num_timesteps * 0.4)` (ddpm.py line 1518). -/
def t_mid_lowerbound : ℕ := num_timesteps * 4 / 10

/-- `int(self.num_timesteps * 0.7)` (ddpm.py line 1518). -/
def t_mid_upperbound : ℕ := num_timesteps * 7 / 10

/-- `int(self.num_timesteps * 0.15)` (ddpm.py line 1521). -/
def reuse_t_offset : ℕ := num_timesteps * 15 / 100

/-- The timestep of a reuse (cached) compositional iteration (ddpm.py lines
1518-1524): `t = torch.minimum(t_mid, prev_t - 150)` with `t_mid` the
injected `torch.randint(400, 700)` draw and `prev_t` the cached previous
timestep. -/
def reuse_iter_t (prev_t t_mid : ℤ) : ℤ :=
  min t_mid (prev_t - (reuse_t_offset : ℤ))

/-- Modelled from the spec: the multi-step denoiser's timestep resampling
(`adaface/unet_teachers.py`, absent from this tree) draws, for each step
`i > 0`, a timestep uniformly from a window whose bounds contract
geometrically toward zero (spec §4.3).  With contraction window
`[lo, hi] ⊆ (0, 1)`, step `i` uses `t_i = t_{i-1} * (lo + u_i * (hi - lo))`
where `u_i ∈ [0,1]` is the step's uniform draw; `us` lists the draws of steps
`1 .. N-1`. -/
def denoiseTimesteps (lo hi : ℚ) : ℚ → List ℚ → List ℚ
  | t0, []      => [t0]
  | t0, u :: us => t0 :: denoiseTimesteps lo hi (t0 * (lo + u * (hi - lo))) us

theorem denoiseTimesteps_chain (lo hi : ℚ) (hlo : 0 < lo) (hlh : lo ≤ hi) (hhi : hi < 1) :
    ∀ (us : List ℚ) (t0 : ℚ), 0 < t0 → (∀ u ∈ us, 0 ≤ u ∧ u ≤ 1) →
      List.Chain' (fun a b => b < a) (denoiseTimesteps lo hi t0 us) := by
  intro us
  induction us with
  | nil =>
    intro t0 _ _
    simp [denoiseTimesteps]
  | cons u us ih =>
    intro t0 ht0 hus
    have hu := hus u (List.mem_cons_self u us)
    have hprod : 0 ≤ (1 - u) * (hi - lo) :=
      mul_nonneg (by linarith [hu.2]) (by linarith)
    have hf0 : 0 < lo + u * (hi - lo) := by nlinarith [hu.1]
    have hf1 : lo + u * (hi - lo) < 1 := by nlinarith
    have ht1 : 0 < t0 * (lo + u * (hi - lo)) := mul_pos ht0 hf0
    have hlt : t0 * (lo + u * (hi - lo)) < t0 := mul_lt_of_lt_one_right ht0 hf1
    have hchain := ih (t0 * (lo + u * (hi - lo))) ht1
      (fun v hv => hus v (List.mem_cons_of_mem u hv))
    show List.Chain' _ (t0 :: denoiseTimesteps lo hi (t0 * (lo + u * (hi - lo))) us)
    refine List.chain'_cons'.mpr ⟨?_, hchain⟩
    intro b hb
    have hhead : b = t0 * (lo + u * (hi - lo)) := by
      cases us <;> simp [denoiseTimesteps] at hb <;> exact hb.symm
    rw [hhead]
    exact hlt

/-- C4: monotone timestep contraction: (i) in the (spec-modelled) multi-step
denoiser every later step's timestep is strictly smaller than the previous
one's; (ii) in a reuse compositional iteration the drawn timestep is at most
the cached previous timestep minus `int(0.15 * num_timesteps) = 150`, hence
strictly smaller than it. -/
theorem monotone_timestep_contraction :
    (∀ (lo hi t0 : ℚ) (us : List ℚ), 0 < lo → lo ≤ hi → hi < 1 → 0 < t0 →
      (∀ u ∈ us, 0 ≤ u ∧ u ≤ 1) →
      List.Chain' (fun a b => b < a) (denoiseTimesteps lo hi t0 us)) ∧
    (∀ prev_t t_mid : ℤ,
      reuse_iter_t prev_t t_mid ≤ prev_t - (reuse_t_offset : ℤ) ∧
      reuse_iter_t prev_t t_mid < prev_t) := by
  constructor
  · intro lo hi t0 us hlo hlh hhi ht0 hus
    exact denoiseTimesteps_chain lo hi hlo hlh hhi us t0 ht0 hus
  · intro prev_t t_mid
    constructor
    · exact min_le_right _ _
    · have h1 : reuse_iter_t prev_t t_mid ≤ prev_t - (reuse_t_offset : ℤ) := min_le_right _ _
      have h2 : (0 : ℤ) < (reuse_t_offset : ℤ) := by
        norm_num [reuse_t_offset, num_timesteps]
      omega

/-- C4 witness: a 3-step denoise starting at `t0 = 900` with window
`[1/4, 1/2]` and draws `1/3, 1/2` has strictly decreasing timesteps, and a
reuse iteration with cached `prev_t = 952` and `t_mid = 500` draws a timestep
at most `802` and below `952`. -/
theorem monotone_timestep_contraction_witness :
    List.Chain' (fun a b => b < a) (denoiseTimesteps (1/4) (1/2) 900 [1/3, 1/2]) ∧
    reuse_iter_t 952 500 ≤ 952 - (reuse_t_offset : ℤ) ∧
    reuse_iter_t 952 500 < 952 :=
  ⟨monotone_timestep_contraction.1 (1/4) (1/2) 900 [1/3, 1/2]
      (by norm_num) (by norm_num) (by norm_num) (by norm_num)
      (by intro u hu; rcases List.mem_cons.mp hu with rfl | hu
          · norm_num
          · rcases List.mem_cons.mp hu with rfl | hu
            · norm_num
            · simp at hu),
   monotone_timestep_contraction.2 952 500⟩

end LayerwiseTI

namespace LayerwiseTI

/-! ## Non-finite loss handling

`LatentDiffusion.p_losses` accumulates `loss += component * scale` terms and
at its tail (ddpm.py lines 2380-2387) checks `torch.isnan(loss)`, stopping at
an interactive `breakpoint()` instead of returning a loss.  Loss scalars are
modelled as rationals extended with a NaN that propagates through `+` and `*`
as in IEEE arithmetic. -/

/-- A loss scalar: finite rational or NaN. -/
inductive FVal
  | nan : FVal
  | fin : ℚ → FVal
  deriving Repr, DecidableEq

/-- Addition with NaN propagation. -/
def FVal.add : FVal → FVal → FVal
  | fin a, fin b => fin (a + b)
  | _, _ => nan

/-- Multiplication with NaN propagation (in IEEE arithmetic `NaN * x = NaN`
for every `x`, including 0). -/
def FVal.mul : FVal → FVal → FVal
  | fin a, fin b => fin (a * b)
  | _, _ => nan

/-- `torch.isnan`. -/
def FVal.isnan : FVal → Bool
  | nan => true
  | fin _ => false

/-- One `loss += component * weight` accumulation step of `p_losses`;
components whose configured weight is zero are gated off by the surrounding
`if weight > 0` checks and leave the accumulator unchanged. -/
def lossStep (acc : FVal) (wc : ℚ × FVal) : FVal :=
  if wc.1 ≠ 0 then acc.add (wc.2.mul (FVal.fin wc.1)) else acc

/-- The aggregated training loss over the weighted component losses of one
step, starting from `loss = 0`. -/
def totalLoss (comps : List (ℚ × FVal)) : FVal :=
  comps.foldl lossStep (FVal.fin 0)

/-- Outcome of the tail of `p_losses`: either the loss is returned or the
`torch.isnan` check at ddpm.py line 2380 fires and execution stops at the
interactive `breakpoint()` (line 2382) without returning a loss. -/
inductive PLossesOutcome
  | breakpointHit
  | returned (loss : FVal)
  deriving Repr, DecidableEq

/-- The NaN check at the tail of `p_losses` (ddpm.py lines 2380-2387). -/
def p_losses_result (loss : FVal) : PLossesOutcome :=
  if loss.isnan then .breakpointHit else .returned loss

/-- Modelled from the spec: `NumericalInstabilityError` (spec §7) does not
exist in the source; the conforming loss aggregator raises it instead of the
source's interactive break when the aggregated loss is non-finite. -/
inductive NumericalInstabilityError
  | nonFiniteLoss
  deriving Repr, DecidableEq

/-- Modelled from the spec: the conforming `LossAggregator` — returns the
aggregated loss, or raises `NumericalInstabilityError` when it is
non-finite. -/
def lossAggregate (comps : List (ℚ × FVal)) : Except NumericalInstabilityError FVal :=
  if (totalLoss comps).isnan then .error .nonFiniteLoss else .ok (totalLoss comps)

theorem FVal.add_nan_right (a : FVal) : a.add FVal.nan = FVal.nan := by
  cases a <;> rfl

theorem lossStep_nan (wc : ℚ × FVal) : lossStep FVal.nan wc = FVal.nan := by
  unfold lossStep
  split_ifs with h
  · rfl
  · rfl

theorem foldl_lossStep_nan (comps : List (ℚ × FVal)) :
    comps.foldl lossStep FVal.nan = FVal.nan := by
  induction comps with
  | nil => rfl
  | cons c t ih => rw [List.foldl_cons, lossStep_nan]; exact ih

theorem totalLoss_isnan_of_mem (comps : List (ℚ × FVal)) (w : ℚ)
    (hmem : (w, FVal.nan) ∈ comps) (hw : w ≠ 0) :
    (totalLoss comps).isnan = true := by
  unfold totalLoss
  suffices h : ∀ acc : FVal, (comps.foldl lossStep acc).isnan = true by exact h _
  induction comps with
  | nil => simp at hmem
  | cons c t ih =>
    intro acc
    rcases List.mem_cons.mp hmem with rfl | hmem'
    · rw [List.foldl_cons]
      have hstep : lossStep acc (w, FVal.nan) = FVal.nan := by
        unfold lossStep
        rw [if_pos hw]
        show acc.add (FVal.nan.mul (FVal.fin w)) = FVal.nan
        have : FVal.nan.mul (FVal.fin w) = FVal.nan := rfl
        rw [this, FVal.add_nan_right]
      rw [hstep, foldl_lossStep_nan]
      rfl
    · rw [List.foldl_cons]
      exact ih hmem' _

/-- C8: a non-finite component loss with non-zero weight makes the aggregated
loss NaN; the source's `p_losses` tail then hits the breakpoint and does not
return a loss, and the spec's conforming aggregator raises
`NumericalInstabilityError` and returns no loss value. -/
theorem nonfinite_loss_is_fatal (comps : List (ℚ × FVal)) (w : ℚ)
    (hmem : (w, FVal.nan) ∈ comps) (hw : w ≠ 0) :
    (totalLoss comps).isnan = true ∧
    p_losses_result (totalLoss comps) = PLossesOutcome.breakpointHit ∧
    lossAggregate comps = Except.error NumericalInstabilityError.nonFiniteLoss ∧
    ∀ l : FVal, lossAggregate comps ≠ Except.ok l := by
  have hnan := totalLoss_isnan_of_mem comps w hmem hw
  refine ⟨hnan, ?_, ?_, ?_⟩
  · unfold p_losses_result
    rw [hnan]
    rfl
  · unfold lossAggregate
    rw [hnan]
    rfl
  · intro l
    unfold lossAggregate
    rw [hnan]
    simp

/-- C8 witness: aggregating the components `[(1, NaN), (2, 3)]` hits the
breakpoint in the source model and the error in the conforming model. -/
theorem nonfinite_loss_is_fatal_witness :
    (totalLoss [(1, FVal.nan), (2, FVal.fin 3)]).isnan = true ∧
    p_losses_result (totalLoss [(1, FVal.nan), (2, FVal.fin 3)]) =
      PLossesOutcome.breakpointHit ∧
    lossAggregate [(1, FVal.nan), (2, FVal.fin 3)] =
      Except.error NumericalInstabilityError.nonFiniteLoss ∧
    ∀ l : FVal, lossAggregate [(1, FVal.nan), (2, FVal.fin 3)] ≠ Except.ok l :=
  nonfinite_loss_is_fatal [(1, FVal.nan), (2, FVal.fin 3)] 1
    (List.mem_cons_self _ _) one_ne_zero

end LayerwiseTI

namespace LayerwiseTI

/-! ## Class-embedding redistribution (`patch_multi_embeddings`, util.py 603-639)

The function patches the class-side prompt embedding when the subject
placeholder spans `M > 1` sub-token slots.  The batch and embedding-dimension
axes are omitted: every tensor operation involved is pointwise across them,
so one batch row with scalar per-position values (`emb : ℕ → ℚ`) captures the
computation.  The `placeholder_indices_N is None` early return is not
modelled (callers always pass indices here). -/

/-- The divide schemes of util.py lines 627-632. -/
inductive DivideScheme
  | sqrt_M
  | M
  | noDivide
  deriving Repr, DecidableEq

/-- The divisor `D` of util.py lines 627-632 as a relation, because
`np.sqrt M` is irrational for non-square `M`: under `sqrt_M` (the default),
`D` is the non-negative square root of `M`; under `M` it is `M`; under
`none`/`None` it is 1. -/
def DivisorSpec : DivideScheme → ℕ → ℚ → Prop
  | .sqrt_M, m, d => 0 ≤ d ∧ d * d = (m : ℚ)
  | .M, m, d => d = (m : ℚ)
  | .noDivide, _, d => d = 1

/-- `placeholder_indices_N0` (util.py line 616): the first element of
`torch.unique(placeholder_indices_N)`, i.e. the smallest index
(`torch.unique` sorts). -/
def placeholder_indices_N0 (inds : List ℕ) : ℕ := inds.minimum?.getD 0

/-- `patch_multi_embeddings(text_embedding, placeholder_indices_N)`
(util.py lines 603-639): with `M = len(torch.unique(inds))`, return the
embedding unchanged when `M == 1`; otherwise every position in `inds` holds
`emb[N0] / D` (the class embedding of the first slot, repeated `M` times and
divided by `D`), and every other position is unchanged. -/
def patch_multi_embeddings (emb : ℕ → ℚ) (inds : List ℕ) (d : ℚ) : ℕ → ℚ :=
  if inds.dedup.length = 1 then emb
  else fun n => if n ∈ inds then emb (placeholder_indices_N0 inds) / d else emb n

/-- The concrete class-side embedding row used in the counterexample: value 1
at the class-token position 2, value 0 elsewhere. -/
def embRow : ℕ → ℚ := fun n => if n = 2 then 1 else 0

/-- C9 counterexample: with the subject placeholder spanning the `M = 4`
slots `[2, 3, 4, 5]` and the default `sqrt_M` scheme (`D = 2` since
`2 * 2 = 4`), the patched class embedding at subject slot 3 is `1/2`, not the
duplicated class value `1` — the class embedding is scaled by `1 / sqrt M`,
not merely duplicated. -/
theorem class_emb_redistribution_counterexample :
    DivisorSpec DivideScheme.sqrt_M ([2, 3, 4, 5] : List ℕ).dedup.length 2 ∧
    embRow 2 = 1 ∧
    patch_multi_embeddings embRow [2, 3, 4, 5] 2 3 = 1/2 ∧
    patch_multi_embeddings embRow [2, 3, 4, 5] 2 3 ≠ embRow 2 := by
  have hlen : ([2, 3, 4, 5] : List ℕ).dedup.length = 4 := by decide
  have hN0 : placeholder_indices_N0 [2, 3, 4, 5] = 2 := by decide
  have hpatch : patch_multi_embeddings embRow [2, 3, 4, 5] 2 3 = 1/2 := by
    unfold patch_multi_embeddings
    rw [if_neg (by rw [hlen]; decide)]
    show (if 3 ∈ [2, 3, 4, 5] then
        embRow (placeholder_indices_N0 [2, 3, 4, 5]) / 2 else embRow 3) = 1/2
    rw [if_pos (by decide), hN0]
    norm_num [embRow]
  refine ⟨⟨by norm_num, ?_⟩, rfl, hpatch, ?_⟩
  · rw [hlen]
    norm_num
  · rw [hpatch]
    norm_num [embRow]

/-- C9 amended: when the subject placeholder spans `M > 1` slots, the class
embedding at the first (single) class-token position is duplicated across all
`M` subject-token slots *scaled by `1/D`* (with `D = √M` under the default
`sqrt_M` scheme), and every other position is unchanged. -/
theorem class_emb_redistribution (emb : ℕ → ℚ) (inds : List ℕ) (d : ℚ) (n : ℕ)
    (hm : 1 < inds.dedup.length) :
    (n ∈ inds →
      patch_multi_embeddings emb inds d n = emb (placeholder_indices_N0 inds) / d) ∧
    (n ∉ inds → patch_multi_embeddings emb inds d n = emb n) := by
  have hne : inds.dedup.length ≠ 1 := by omega
  unfold patch_multi_embeddings
  rw [if_neg hne]
  constructor
  · intro hn
    rw [if_pos hn]
  · intro hn
    rw [if_neg hn]

/-- C9 amended witness: on the concrete row, subject slot 3 receives the
class value scaled by `1/2` and position 7 is unchanged. -/
theorem class_emb_redistribution_witness :
    patch_multi_embeddings embRow [2, 3, 4, 5] 2 3 =
      embRow (placeholder_indices_N0 [2, 3, 4, 5]) / 2 ∧
    patch_multi_embeddings embRow [2, 3, 4, 5] 2 7 = embRow 7 :=
  ⟨(class_emb_redistribution embRow [2, 3, 4, 5] 2 3 (by decide)).1 (by decide),
   (class_emb_redistribution embRow [2, 3, 4, 5] 2 7 (by decide)).2 (by decide)⟩

end LayerwiseTI
